import Mathlib

/-!
Shallow embedding of `.github/scripts/scan_workflows.py`: a scanner that
searches GitHub Actions workflow files for the pattern `id-token: write`
(case-insensitive, flexible spacing around the colon) and builds a SARIF
report. Strings are modelled as `List Char`; the filesystem is modelled as
an optional directory holding named file contents.
-/

namespace ScanWf

/-- The whitespace class of Python regex `\s` restricted to ASCII. -/
def isPySpace (c : Char) : Bool :=
  c = ' ' || c = '\t' || c = '\n' || c = '\r' || c = '\x0b' || c = '\x0c'

/-- Case-insensitive literal matcher: consume `pat` (given in lowercase) from
the front of `cs`, comparing each input character lowered; return the rest on
success.  Embeds the literal parts of the regex `id-token\s*:\s*write` under
`re.IGNORECASE`. -/
def dropLit : List Char → List Char → Option (List Char)
  | [], cs => some cs
  | _ :: _, [] => none
  | p :: ps, c :: cs => if c.toLower = p then dropLit ps cs else none

/-- Does the regex `id-token\s*:\s*write` (IGNORECASE) match at the start of
`cs`?  Since `:` and `w`/`W` are not whitespace, greedy whitespace skipping is
equivalent to the regex backtracking search. -/
def matchPatternAt (cs : List Char) : Bool :=
  match dropLit "id-token".data cs with
  | none => false
  | some r1 =>
    match r1.dropWhile isPySpace with
    | ':' :: r2 => (dropLit "write".data (r2.dropWhile isPySpace)).isSome
    | _ => false

/-- Python re.search of the pattern id-token, colon, write (IGNORECASE) succeeds:
the pattern matches at some position of the line. -/
def lineMatches (line : List Char) : Bool :=
  line.tails.any matchPatternAt

/-- Case-sensitive prefix test (helper for the Python find method). -/
def beginsWith : List Char → List Char → Bool
  | [], _ => true
  | _ :: _, [] => false
  | a :: as, b :: bs => (a = b) && beginsWith as bs

/-- Python hay.find of needle: index of the first (case-sensitive) occurrence
of `needle` in `hay`, `none` for Python's `-1`. -/
def findSub (needle : List Char) : List Char → Option Nat
  | [] => if beginsWith needle [] then some 0 else none
  | c :: t =>
    if beginsWith needle (c :: t) then some 0
    else (findSub needle t).map (· + 1)

/-- The column computation of the scanner: col is the case-sensitive find of
the lowercase token id-token in the line; if absent then 1 else index plus 1
(1-based). -/
def colOf (line : List Char) : Nat :=
  match findSub "id-token".data line with
  | none => 1
  | some i => i + 1

/-- SARIF `region` object. -/
structure Region where
  startLine : Nat
  startColumn : Nat
  endLine : Nat
  endColumn : Nat
deriving DecidableEq

/-- One SARIF result, as the dict built in `scan_workflows`. -/
structure Finding where
  ruleId : String
  ruleIndex : Nat
  level : String
  messageText : String
  uri : List Char
  region : Region
deriving DecidableEq

/-- The issue dict appended for a matching line `line` numbered `lineNum`
(1-based) of the file at `relPath`. -/
def mkFinding (relPath : List Char) (lineNum : Nat) (line : List Char) : Finding :=
  { ruleId := "github-actions/id-token-write"
  , ruleIndex := 0
  , level := "error"
  , messageText :=
      "Workflow uses \x27id-token: write\x27 permission which allows requesting OIDC tokens."
  , uri := relPath
  , region :=
    { startLine := lineNum
    , startColumn := colOf line
    , endLine := lineNum
    , endColumn := colOf line + "id-token: write".data.length } }

/-- Python content.split on the newline character. -/
def splitNL : List Char → List (List Char)
  | [] => [[]]
  | c :: t =>
    if c = '\n' then [] :: splitNL t
    else
      match splitNL t with
      | [] => [[c]]
      | l :: ls => (c :: l) :: ls

/-- The per-file loop body of `scan_workflows`: split into lines, emit one
finding for every line the regex matches, numbered from 1. -/
def scanFile (relPath : List Char) (content : List Char) : List Finding :=
  (splitNL content).enum.filterMap fun p =>
    if lineMatches p.2 then some (mkFinding relPath (p.1 + 1) p.2) else none

/-- Model of the workflow directory: named files with contents. -/
structure WorkflowDir where
  entries : List (List Char × List Char)

/-- Model of the ambient filesystem: the workflow directory may be absent. -/
structure FileSystem where
  workflows : Option WorkflowDir

/-- Case-sensitive suffix test (fnmatch of `*.yml` / `*.yaml`). -/
def endsWithL (s hay : List Char) : Bool :=
  beginsWith s.reverse hay.reverse

/-- Python glob hides entries whose names start with a dot. -/
def isHidden (name : List Char) : Bool :=
  match name with
  | '.' :: _ => true
  | _ => false

/-- Concatenation of the two glob calls of the source, yml then yaml:
all `*.yml` entries, in directory order, followed by all `*.yaml` entries. -/
def globFiles (d : WorkflowDir) : List (List Char × List Char) :=
  d.entries.filter (fun e => endsWithL ".yml".data e.1 && !isHidden e.1)
    ++ d.entries.filter (fun e => endsWithL ".yaml".data e.1 && !isHidden e.1)

/-- The glob paths join the directory with the file name, and relative_to of
the current directory leaves them unchanged, so the reported uri is this
path. -/
def uriOf (name : List Char) : List Char :=
  ".github/workflows/".data ++ name

/-- The function scan_workflows: empty when the directory is absent, otherwise the
concatenation of the per-file scans over the globbed files. -/
def scan_workflows (fs : FileSystem) : List Finding :=
  match fs.workflows with
  | none => []
  | some d => (globFiles d).flatMap fun e => scanFile (uriOf e.1) e.2

/-- One SARIF rule object. -/
structure Rule where
  id : String
  name : String
  shortDescriptionText : String
  fullDescriptionText : String
  defaultLevel : String
  tags : List String
deriving DecidableEq

/-- The tool.driver object of the report. -/
structure Driver where
  name : String
  version : String
  rules : List Rule
deriving DecidableEq

/-- The SARIF document produced by `generate_sarif` (single run). -/
structure Sarif where
  version : String
  schema : String
  driver : Driver
  results : List Finding
deriving DecidableEq

/-- The single rule of the rule table. -/
def theRule : Rule :=
  { id := "github-actions/id-token-write"
  , name := "id-token: write permission detected"
  , shortDescriptionText := "Workflow uses id-token: write permission"
  , fullDescriptionText :=
      "Detects when a workflow uses id-token: write permission, which allows the workflow to request OIDC tokens."
  , defaultLevel := "error"
  , tags := ["security", "github-actions"] }

/-- The function generate_sarif applied to the issue list. -/
def generate_sarif (issues : List Finding) : Sarif :=
  { version := "2.1.0"
  , schema :=
      "https://raw.githubusercontent.com/oasis-tcs/sarif-spec/master/Schemata/sarif-schema-2.1.0.json"
  , driver :=
    { name := "Workflow Security Scanner"
    , version := "1.0.0"
    , rules := [theRule] }
  , results := issues }

/-- Observable outcome of one run of the script: exit status, printed lines,
and the report written to `results.sarif`. -/
structure RunResult where
  exitCode : Nat
  stdoutLines : List (List Char)
  report : Sarif
deriving DecidableEq

/-- The main block: scan, print a summary, always write a report and
exit 0. -/
def main_run (fs : FileSystem) : RunResult :=
  let issues := scan_workflows fs
  if issues.isEmpty then
    { exitCode := 0
    , stdoutLines := ["No issues found".data]
    , report := generate_sarif [] }
  else
    { exitCode := 0
    , stdoutLines :=
        ["Found ".data ++ (Nat.repr issues.length).data ++ " issue(s)".data
        , "Generated results.sarif".data]
    , report := generate_sarif issues }

/-- The files the scanner iterates over, as a function of the filesystem. -/
def enumeratedFiles (fs : FileSystem) : List (List Char × List Char) :=
  match fs.workflows with
  | none => []
  | some d => globFiles d

/-- Spec-side helper (for comparison with the code): case-insensitive prefix
test, pattern given in lowercase. -/
def beginsWithCI : List Char → List Char → Bool
  | [], _ => true
  | _ :: _, [] => false
  | a :: as, b :: bs => (b.toLower = a) && beginsWithCI as bs

/-- Spec-side helper: index of the first case-insensitive occurrence of
`needle` in `hay`, as the spec describes the column computation. -/
def findSubCI (needle : List Char) : List Char → Option Nat
  | [] => if beginsWithCI needle [] then some 0 else none
  | c :: t =>
    if beginsWithCI needle (c :: t) then some 0
    else (findSubCI needle t).map (· + 1)

/-- Spec-side statement of the line pattern: the literal token `id-token`,
optional whitespace, a colon, optional whitespace, the literal token `write`,
case-insensitively, anywhere in the line. -/
def specLineMatches (line : List Char) : Prop :=
  ∃ pre tok ws1 ws2 wr post,
    line = pre ++ tok ++ ws1 ++ ':' :: (ws2 ++ wr ++ post) ∧
    tok.map Char.toLower = "id-token".data ∧
    (∀ c ∈ ws1, isPySpace c = true) ∧
    (∀ c ∈ ws2, isPySpace c = true) ∧
    wr.map Char.toLower = "write".data

/-- Example directory: one workflow whose third line is the spec's example. -/
def exDir1 : WorkflowDir :=
  ⟨[("deploy.yml".data, "on: push\npermissions:\n  id-token:   WRITE".data)]⟩

/-- Example filesystem around `exDir1`. -/
def exFS1 : FileSystem := ⟨some exDir1⟩

/-- The single finding produced on `exFS1`. -/
def exFinding1 : Finding :=
  mkFinding (uriOf "deploy.yml".data) 3 "  id-token:   WRITE".data

/-- Example with an upper-case `ID-TOKEN`, exercising the column fallback. -/
def exFS2 : FileSystem := ⟨some ⟨[("a.yml".data, "  ID-TOKEN: write".data)]⟩⟩

/-- Example with a workflow file containing no match. -/
def exFS3 : FileSystem :=
  ⟨some ⟨[("ok.yml".data, "on: push\npermissions: read".data)]⟩⟩

section Lemmas

/-- Unfolding of the scanner through `enumeratedFiles`. -/
lemma scan_eq_flatMap (fs : FileSystem) :
    scan_workflows fs = (enumeratedFiles fs).flatMap fun e => scanFile (uriOf e.1) e.2 := by
  unfold scan_workflows enumeratedFiles
  cases fs.workflows <;> simp

/-- Membership in a per-file scan, characterised by line index. -/
lemma mem_scanFile {relPath content : List Char} {f : Finding} :
    f ∈ scanFile relPath content ↔
      ∃ i, ∃ hi : i < (splitNL content).length,
        lineMatches ((splitNL content).get ⟨i, hi⟩) = true ∧
        f = mkFinding relPath (i + 1) ((splitNL content).get ⟨i, hi⟩) := by
  simp only [scanFile, List.mem_filterMap]
  constructor
  · rintro ⟨⟨i, line⟩, hmem, hf⟩
    rw [List.mem_enum_iff_getElem?] at hmem
    obtain ⟨hi, hline⟩ := List.getElem?_eq_some.1 hmem
    by_cases hm : lineMatches line = true
    · refine ⟨i, hi, ?_, ?_⟩
      · rw [List.get_eq_getElem, hline]; exact hm
      · simp only [hm, if_true] at hf
        rw [List.get_eq_getElem, hline]
        exact (Option.some_inj.1 hf).symm
    · simp only [Bool.not_eq_true] at hm
      simp [hm] at hf
  · rintro ⟨i, hi, hm, rfl⟩
    refine ⟨(i, (splitNL content).get ⟨i, hi⟩), ?_, ?_⟩
    · rw [List.mem_enum_iff_getElem?]
      simp [List.getElem?_eq_getElem hi]
    · rw [List.get_eq_getElem] at hm
      simp [hm]

/-- Every finding the scanner emits is `mkFinding` of some globbed file name
and some 1-based line number of a matching line. -/
lemma finding_shape {fs : FileSystem} {f : Finding} (h : f ∈ scan_workflows fs) :
    ∃ name i line, lineMatches line = true ∧ f = mkFinding (uriOf name) (i + 1) line := by
  rw [scan_eq_flatMap, List.mem_flatMap] at h
  obtain ⟨e, _, hf⟩ := h
  obtain ⟨i, hi, hm, rfl⟩ := mem_scanFile.1 hf
  exact ⟨e.1, i, _, hm, rfl⟩

/-- The function findSub returns the least index at which `needle` occurs. -/
lemma findSub_some {needle : List Char} :
    ∀ {hay : List Char} {i : Nat}, findSub needle hay = some i →
      beginsWith needle (hay.drop i) = true ∧
      ∀ j, j < i → beginsWith needle (hay.drop j) = false := by
  intro hay
  induction hay with
  | nil =>
    intro i h
    unfold findSub at h
    split at h
    · cases h
      exact ⟨by assumption, fun j hj => absurd hj (Nat.not_lt_zero j)⟩
    · cases h
  | cons c t ih =>
    intro i h
    unfold findSub at h
    split at h
    · cases h
      exact ⟨by assumption, fun j hj => absurd hj (Nat.not_lt_zero j)⟩
    · obtain ⟨i', hi', rfl⟩ := Option.map_eq_some'.1 h
      obtain ⟨h1, h2⟩ := ih hi'
      refine ⟨h1, ?_⟩
      intro j hj
      cases j with
      | zero =>
        simp only [List.drop_zero]
        exact Bool.not_eq_true _ ▸ (by simpa using (by assumption : ¬ beginsWith needle (c :: t) = true))
      | succ j' =>
        exact h2 j' (Nat.lt_of_succ_lt_succ hj)

/-- The test beginsWith is exactly the existence of a completing suffix. -/
lemma beginsWith_iff :
    ∀ (needle hay : List Char),
      beginsWith needle hay = true ↔ ∃ t, hay = needle ++ t := by
  intro needle
  induction needle with
  | nil => intro hay; simp [beginsWith]
  | cons a as ih =>
    intro hay
    cases hay with
    | nil =>
      simp only [beginsWith, List.cons_append]
      constructor
      · intro h; cases h
      · rintro ⟨t, h⟩; cases h
    | cons b bs =>
      simp only [beginsWith, Bool.and_eq_true, decide_eq_true_eq, ih bs]
      constructor
      · rintro ⟨rfl, t, rfl⟩; exact ⟨t, rfl⟩
      · rintro ⟨t, h⟩
        injection h with h1 h2
        exact ⟨h1.symm, t, h2⟩

/-- A true `beginsWith` survives extending the haystack on the right. -/
lemma beginsWith_extend {a : List Char} :
    ∀ {b : List Char}, beginsWith a b = true → ∀ c, beginsWith a (b ++ c) = true := by
  intro b h c
  obtain ⟨t, rfl⟩ := (beginsWith_iff a b).1 h
  exact (beginsWith_iff a _).2 ⟨t ++ c, by simp⟩

/-- An `endsWithL` suffix is preserved by prepending. -/
lemma endsWithL_append {s n : List Char} (h : endsWithL s n = true) (p : List Char) :
    endsWithL s (p ++ n) = true := by
  unfold endsWithL at h ⊢
  rw [List.reverse_append]
  exact beginsWith_extend h _

/-- Success of dropLit is equivalent to a case-insensitive copy of `pat` beginning `cs`
and `r` is the rest. -/
lemma dropLit_iff :
    ∀ (pat cs r : List Char),
      dropLit pat cs = some r ↔ ∃ tok, cs = tok ++ r ∧ tok.map Char.toLower = pat := by
  intro pat
  induction pat with
  | nil =>
    intro cs r
    simp only [dropLit, Option.some_inj]
    constructor
    · rintro rfl; exact ⟨[], rfl, rfl⟩
    · rintro ⟨tok, rfl, htok⟩
      have : tok = [] := List.map_eq_nil_iff.1 htok
      simp [this]
  | cons p ps ih =>
    intro cs r
    cases cs with
    | nil =>
      simp only [dropLit]
      constructor
      · intro h; cases h
      · rintro ⟨tok, h, htok⟩
        cases tok with
        | nil => cases htok
        | cons a as => cases h
    | cons c cs' =>
      by_cases hcp : c.toLower = p
      · rw [show dropLit (p :: ps) (c :: cs') = dropLit ps cs' from by simp [dropLit, hcp]]
        rw [ih cs' r]
        constructor
        · rintro ⟨tok', rfl, htok'⟩
          exact ⟨c :: tok', rfl, by simp [htok', hcp]⟩
        · rintro ⟨tok, h, htok⟩
          cases tok with
          | nil => cases htok
          | cons a as =>
            injection h with h1 h2
            injection htok with h3 h4
            exact ⟨as, by rw [h2]; rfl, h4⟩
      · rw [show dropLit (p :: ps) (c :: cs') = none from by simp [dropLit, hcp]]
        constructor
        · intro h; cases h
        · rintro ⟨tok, h, htok⟩
          cases tok with
          | nil => cases htok
          | cons a as =>
            injection h with h1 h2
            injection htok with h3 h4
            subst h1
            exact absurd h3 hcp

/-- Whitespace characters are fixed by `Char.toLower`. -/
lemma isPySpace_toLower {c : Char} (h : isPySpace c = true) : c.toLower = c := by
  simp only [isPySpace, Bool.or_eq_true, decide_eq_true_eq] at h
  rcases h with ((((h | h) | h) | h) | h) | h <;> subst h <;> decide

/-- A character lowering to `w` is not whitespace. -/
lemma toLower_w_not_space {c : Char} (h : c.toLower = 'w') : isPySpace c = false := by
  by_contra hs
  rw [Bool.not_eq_false] at hs
  rw [isPySpace_toLower hs] at h
  subst h
  simp [isPySpace] at hs

/-- Dropping whitespace walks over an all-whitespace prefix. -/
lemma dropWhile_spaces_append {ws : List Char} (h : ∀ c ∈ ws, isPySpace c = true) :
    ∀ l, (ws ++ l).dropWhile isPySpace = l.dropWhile isPySpace := by
  induction ws with
  | nil => intro l; rfl
  | cons a as ih =>
    intro l
    have ha : isPySpace a = true := h a (List.mem_cons_self a as)
    rw [List.cons_append, List.dropWhile_cons, ha]
    simp only [if_true]
    exact ih (fun c hc => h c (List.mem_cons_of_mem a hc)) l

/-- Line numbers in an enumeration are strictly increasing. -/
lemma enumFrom_pairwise_fst {α : Type} :
    ∀ (L : List α) (k : Nat), (L.enumFrom k).Pairwise fun a b => a.1 < b.1 := by
  intro L
  induction L with
  | nil => intro k; simp
  | cons a t ih =>
    intro k
    rw [List.enumFrom_cons]
    refine List.Pairwise.cons ?_ (ih (k + 1))
    intro b hb
    rw [List.mem_iff_getElem?] at hb
    obtain ⟨m, hm⟩ := hb
    rw [List.getElem?_enumFrom] at hm
    obtain ⟨x, _, hx⟩ := Option.map_eq_some'.1 hm
    have : b.1 = k + 1 + m := by rw [← hx]
    omega

/-- Greedy matching at a position is exactly the existence of a decomposition
into token, whitespace, colon, whitespace, token. -/
lemma matchPatternAt_iff (cs : List Char) :
    matchPatternAt cs = true ↔
      ∃ tok ws1 ws2 wr post,
        cs = tok ++ ws1 ++ ':' :: (ws2 ++ wr ++ post) ∧
        tok.map Char.toLower = "id-token".data ∧
        (∀ c ∈ ws1, isPySpace c = true) ∧
        (∀ c ∈ ws2, isPySpace c = true) ∧
        wr.map Char.toLower = "write".data := by
  constructor
  · intro h
    unfold matchPatternAt at h
    split at h
    · cases h
    · next r1 h1 =>
      split at h
      · next r2 h2 =>
        obtain ⟨tok, hcs, htok⟩ := (dropLit_iff _ cs r1).1 h1
        obtain ⟨post, h3⟩ := Option.isSome_iff_exists.1 h
        obtain ⟨wr, hr2, hwr⟩ := (dropLit_iff _ _ post).1 h3
        have d1 : r1 = r1.takeWhile isPySpace ++ ':' :: r2 := by
          rw [← h2, List.takeWhile_append_dropWhile]
        have d2 : r2 = r2.takeWhile isPySpace ++ (wr ++ post) := by
          rw [← hr2, List.takeWhile_append_dropWhile]
        refine ⟨tok, r1.takeWhile isPySpace, r2.takeWhile isPySpace, wr, post,
          ?_, htok, ?_, ?_, hwr⟩
        · rw [hcs]
          conv_lhs => rw [d1, d2]
          simp
        · intro c hc; exact List.mem_takeWhile_imp hc
        · intro c hc; exact List.mem_takeWhile_imp hc
      · next h2 => cases h
  · rintro ⟨tok, ws1, ws2, wr, post, rfl, htok, hws1, hws2, hwr⟩
    have e1 : dropLit "id-token".data (tok ++ ws1 ++ ':' :: (ws2 ++ wr ++ post))
        = some (ws1 ++ ':' :: (ws2 ++ wr ++ post)) := by
      rw [dropLit_iff]
      exact ⟨tok, by simp, htok⟩
    have hwcons : ∃ w wr', wr = w :: wr' ∧ w.toLower = 'w' := by
      cases wr with
      | nil => cases hwr
      | cons w wr' =>
        injection hwr with hw1 hw2
        exact ⟨w, wr', rfl, hw1⟩
    obtain ⟨w, wr', hwr', hw⟩ := hwcons
    have e2 : (ws1 ++ ':' :: (ws2 ++ wr ++ post)).dropWhile isPySpace
        = ':' :: (ws2 ++ wr ++ post) := by
      rw [dropWhile_spaces_append hws1, List.dropWhile_cons]
      simp [isPySpace]
    have e3 : (ws2 ++ wr ++ post).dropWhile isPySpace = wr ++ post := by
      rw [List.append_assoc, dropWhile_spaces_append hws2, hwr', List.cons_append,
          List.dropWhile_cons, toLower_w_not_space hw]
      simp
    have e4 : dropLit "write".data (wr ++ post) = some post := by
      rw [dropLit_iff]
      exact ⟨wr, rfl, hwr⟩
    simp only [matchPatternAt, e1, e2, e3, e4, Option.isSome_some]

/-- Searching anywhere in the line is exactly the existence of a split with a
match at the split point. -/
lemma lineMatches_iff (line : List Char) :
    lineMatches line = true ↔
      ∃ pre suf, line = pre ++ suf ∧ matchPatternAt suf = true := by
  unfold lineMatches
  rw [List.any_eq_true]
  constructor
  · rintro ⟨t, ht, hm⟩
    obtain ⟨pre, hpre⟩ := (List.mem_tails t line).1 ht
    exact ⟨pre, t, hpre.symm, hm⟩
  · rintro ⟨pre, suf, rfl, hm⟩
    exact ⟨suf, (List.mem_tails suf _).2 ⟨pre, rfl⟩, hm⟩

end Lemmas

/-- C1, counterexample: on the spec example (line 3 of deploy.yml equal to
two spaces, id-token, colon, three spaces, WRITE) the finding has start
column 3 and end column 18, and 18 is not 3 + 16: the claimed offset 16 is
wrong, the literal has 15 characters. -/
theorem C1_counterexample :
    (scan_workflows exFS1).map (fun f => (f.region.startColumn, f.region.endColumn))
      = [(3, 18)] ∧
    ¬ (18 : Nat) = 3 + 16 := by
  refine ⟨by decide, by decide⟩

/-- C1, amended: for every Finding emitted by the Scanner, the end column
equals the start column plus the length of the literal string
id-token-colon-space-write, and that length is 15 (not 16). -/
theorem C1_end_column (fs : FileSystem) (f : Finding) (h : f ∈ scan_workflows fs) :
    f.region.endColumn = f.region.startColumn + "id-token: write".data.length ∧
    "id-token: write".data.length = 15 := by
  obtain ⟨name, i, line, hm, rfl⟩ := finding_shape h
  exact ⟨rfl, by decide⟩

/-- Witness for C1 at the concrete example filesystem. -/
theorem C1_end_column_witness :
    exFinding1 ∈ scan_workflows exFS1 ∧
    exFinding1.region.endColumn
      = exFinding1.region.startColumn + "id-token: write".data.length := by
  have hm : exFinding1 ∈ scan_workflows exFS1 := by decide
  exact ⟨hm, (C1_end_column exFS1 exFinding1 hm).1⟩

/-- C2, counterexample: the line with upper-case ID-TOKEN matches the pattern,
its first case-insensitive occurrence of id-token is at index 2 (column 3),
but the scanner reports start column 1: the fallback fires because the find
call is case-sensitive, so the fallback is reachable. -/
theorem C2_counterexample :
    lineMatches "  ID-TOKEN: write".data = true ∧
    findSubCI "id-token".data "  ID-TOKEN: write".data = some 2 ∧
    (scan_workflows exFS2).map (fun f => f.region.startColumn) = [1] ∧
    ¬ (1 : Nat) = 2 + 1 := by
  refine ⟨by decide, by decide, by decide, by decide⟩

/-- C2, amended: the start column is one plus the index of the first
case-sensitive occurrence of the lowercase substring id-token (Python find),
that index is least, and the fall-back to column 1 is reachable: there is a
line matched by the pattern in which the case-sensitive search fails. -/
theorem C2_start_column :
    (∀ relPath n line, (mkFinding relPath n line).region.startColumn =
        match findSub "id-token".data line with
        | some i => i + 1
        | none => 1) ∧
    (∀ line i, findSub "id-token".data line = some i →
        beginsWith "id-token".data (line.drop i) = true ∧
        ∀ j, j < i → beginsWith "id-token".data (line.drop j) = false) ∧
    (∃ line, lineMatches line = true ∧ findSub "id-token".data line = none) := by
  refine ⟨?_, ?_, ?_⟩
  · intro relPath n line
    cases hf : findSub "id-token".data line with
    | none => simp [mkFinding, colOf, hf]
    | some i => simp [mkFinding, colOf, hf]
  · intro line i h
    exact findSub_some h
  · exact ⟨"  ID-TOKEN: write".data, by decide, by decide⟩

/-- Witness for C2: the occurrence at index 2 of a lowercase line is found
and indices below 2 fail. -/
theorem C2_start_column_witness :
    beginsWith "id-token".data ("  id-token: write".data.drop 2) = true ∧
    beginsWith "id-token".data ("  id-token: write".data.drop 0) = false := by
  have h := C2_start_column.2.1 "  id-token: write".data 2 (by decide)
  exact ⟨h.1, h.2 0 (by decide)⟩

/-- C3: a line produces a Finding (the search succeeds) if and only if the
line contains, anywhere, the token id-token, optional whitespace, a colon,
optional whitespace and the token write, matched case-insensitively. -/
theorem C3_match_iff (line : List Char) :
    lineMatches line = true ↔ specLineMatches line := by
  rw [lineMatches_iff]
  unfold specLineMatches
  constructor
  · rintro ⟨pre, suf, rfl, hm⟩
    obtain ⟨tok, ws1, ws2, wr, post, rfl, htok, hws1, hws2, hwr⟩ :=
      (matchPatternAt_iff _).1 hm
    exact ⟨pre, tok, ws1, ws2, wr, post, by simp, htok, hws1, hws2, hwr⟩
  · rintro ⟨pre, tok, ws1, ws2, wr, post, rfl, htok, hws1, hws2, hwr⟩
    refine ⟨pre, tok ++ ws1 ++ ':' :: (ws2 ++ wr ++ post), by simp, ?_⟩
    exact (matchPatternAt_iff _).2 ⟨tok, ws1, ws2, wr, post, rfl, htok, hws1, hws2, hwr⟩

/-- C4: for every line of a file that the pattern matches, the per-file scan
emits exactly one Finding carrying that file path and that 1-based line
number. -/
theorem C4_one_per_line (relPath content : List Char) (n : Nat)
    (hn : n < (splitNL content).length)
    (hm : lineMatches ((splitNL content).get ⟨n, hn⟩) = true) :
    ∃! f, f ∈ scanFile relPath content ∧ f.region.startLine = n + 1 ∧ f.uri = relPath := by
  refine ⟨mkFinding relPath (n + 1) ((splitNL content).get ⟨n, hn⟩), ⟨?_, rfl, rfl⟩, ?_⟩
  · exact mem_scanFile.2 ⟨n, hn, hm, rfl⟩
  · rintro g ⟨hg, hsl, -⟩
    obtain ⟨i, hi, hmi, rfl⟩ := mem_scanFile.1 hg
    have hin : i + 1 = n + 1 := hsl
    have : i = n := by omega
    subst this
    rfl

/-- Witness for C4 on a concrete two-match-candidate file. -/
theorem C4_one_per_line_witness :
    ∃! f, f ∈ scanFile "a.yml".data "x\n  id-token: write\ny".data ∧
      f.region.startLine = 2 ∧ f.uri = "a.yml".data :=
  C4_one_per_line "a.yml".data "x\n  id-token: write\ny".data 1 (by decide) (by decide)

/-- C5: when the workflow directory is absent the scan is empty, the run
exits 0 and the written report is the empty-results report. -/
theorem C5_missing_dir (fs : FileSystem) (h : fs.workflows = none) :
    scan_workflows fs = [] ∧ (main_run fs).exitCode = 0 ∧
    (main_run fs).report = generate_sarif [] ∧ (main_run fs).report.results = [] := by
  have hs : scan_workflows fs = [] := by unfold scan_workflows; rw [h]
  have hm : main_run fs =
      { exitCode := 0, stdoutLines := ["No issues found".data]
      , report := generate_sarif [] } := by
    unfold main_run
    rw [hs]
    rfl
  exact ⟨hs, by rw [hm], by rw [hm], by rw [hm]; rfl⟩

/-- Witness for C5 at the filesystem with no workflow directory. -/
theorem C5_missing_dir_witness :
    scan_workflows ⟨none⟩ = [] ∧ (main_run ⟨none⟩).exitCode = 0 ∧
    (main_run ⟨none⟩).report = generate_sarif [] ∧ (main_run ⟨none⟩).report.results = [] :=
  C5_missing_dir ⟨none⟩ rfl

/-- C6: in every produced report the rule table is exactly the one rule, and
every result has ruleIndex 0 and ruleId equal to that rule's id. -/
theorem C6_rule_table (fs : FileSystem) :
    (main_run fs).report.driver.rules = [theRule] ∧
    ∀ f ∈ (main_run fs).report.results, f.ruleIndex = 0 ∧ f.ruleId = theRule.id := by
  constructor
  · simp only [main_run]
    split <;> rfl
  · intro f hf
    have hf' : f ∈ scan_workflows fs := by
      simp only [main_run] at hf
      split at hf
      · simp [generate_sarif] at hf
      · simpa [generate_sarif] using hf
    obtain ⟨name, i, line, hmm, rfl⟩ := finding_shape hf'
    exact ⟨rfl, rfl⟩

/-- Witness for C6 at the concrete example finding. -/
theorem C6_rule_table_witness :
    exFinding1.ruleIndex = 0 ∧ exFinding1.ruleId = theRule.id :=
  (C6_rule_table exFS1).2 exFinding1 (by decide)

/-- C7: when no enumerated file has a matching line, the scan is empty and
the report results are empty. -/
theorem C7_no_match_empty (fs : FileSystem)
    (h : ∀ e ∈ enumeratedFiles fs, ∀ line ∈ splitNL e.2, lineMatches line = false) :
    scan_workflows fs = [] ∧ (main_run fs).report.results = [] := by
  have hs : scan_workflows fs = [] := by
    rw [scan_eq_flatMap, List.flatMap_eq_nil_iff]
    intro e he
    unfold scanFile
    rw [List.filterMap_eq_nil_iff]
    intro a ha
    rw [List.mem_enum_iff_getElem?] at ha
    have hline : a.2 ∈ splitNL e.2 := List.getElem?_mem ha
    simp [h e he a.2 hline]
  refine ⟨hs, ?_⟩
  simp [main_run, hs, generate_sarif]

/-- Witness for C7 at a filesystem with one clean workflow file. -/
theorem C7_no_match_empty_witness :
    scan_workflows exFS3 = [] ∧ (main_run exFS3).report.results = [] :=
  C7_no_match_empty exFS3 (by decide)

/-- C8: the run always exits 0 and prints either the no-issues line or the
found-count line. -/
theorem C8_exit_summary (fs : FileSystem) :
    (main_run fs).exitCode = 0 ∧
    ((scan_workflows fs).isEmpty = true ∧
        (main_run fs).stdoutLines = ["No issues found".data] ∨
      (scan_workflows fs).isEmpty = false ∧
        (main_run fs).stdoutLines =
          ["Found ".data ++ (Nat.repr (scan_workflows fs).length).data ++ " issue(s)".data,
            "Generated results.sarif".data]) := by
  by_cases h : (scan_workflows fs).isEmpty
  · exact ⟨by simp [main_run, h], Or.inl ⟨h, by simp [main_run, h]⟩⟩
  · rw [Bool.not_eq_true] at h
    exact ⟨by simp [main_run, h], Or.inr ⟨h, by simp [main_run, h]⟩⟩

/-- C9: every report field other than results is a constant independent of the
findings, results are exactly the given findings, and two runs whose scans
agree produce identical run outcomes (hence byte-identical serialized
reports). -/
theorem C9_reproducible :
    (∀ issues, (generate_sarif issues).version = "2.1.0" ∧
        (generate_sarif issues).schema =
          "https://raw.githubusercontent.com/oasis-tcs/sarif-spec/master/Schemata/sarif-schema-2.1.0.json" ∧
        (generate_sarif issues).driver = (generate_sarif []).driver ∧
        (generate_sarif issues).results = issues) ∧
    ∀ fs1 fs2, scan_workflows fs1 = scan_workflows fs2 → main_run fs1 = main_run fs2 := by
  refine ⟨fun issues => ⟨rfl, rfl, rfl, rfl⟩, ?_⟩
  intro fs1 fs2 h
  unfold main_run
  rw [h]

/-- Witness for C9: two filesystems with equal (empty) scans give equal runs. -/
theorem C9_reproducible_witness :
    main_run ⟨none⟩ = main_run ⟨some ⟨[]⟩⟩ :=
  C9_reproducible.2 ⟨none⟩ ⟨some ⟨[]⟩⟩ (by decide)

/-- C10: every finding has endLine equal to startLine; within one file the
findings are in strictly increasing line order; and the whole result list
splits as findings whose uri ends in .yml followed by findings whose uri
ends in .yaml. -/
theorem C10_order (fs : FileSystem) :
    (∀ f ∈ scan_workflows fs, f.region.endLine = f.region.startLine) ∧
    (∀ relPath content, (scanFile relPath content).Pairwise
        fun a b => a.region.startLine < b.region.startLine) ∧
    ∀ d, fs.workflows = some d →
      ∃ l1 l2, scan_workflows fs = l1 ++ l2 ∧
        (∀ f ∈ l1, endsWithL ".yml".data f.uri = true) ∧
        (∀ f ∈ l2, endsWithL ".yaml".data f.uri = true) := by
  refine ⟨?_, ?_, ?_⟩
  · intro f hf
    obtain ⟨name, i, line, hm, rfl⟩ := finding_shape hf
    rfl
  · intro relPath content
    unfold scanFile
    have hp : (splitNL content).enum.Pairwise (fun a b => a.1 < b.1) := by
      rw [List.enum_eq_enumFrom]
      exact enumFrom_pairwise_fst _ 0
    refine hp.filterMap _ ?_
    intro a a' hlt b hb b' hb'
    rw [Option.mem_def] at hb hb'
    by_cases hma : lineMatches a.2 = true
    · rw [if_pos hma] at hb
      by_cases hma' : lineMatches a'.2 = true
      · rw [if_pos hma'] at hb'
        injection hb with hb
        injection hb' with hb'
        subst hb
        subst hb'
        show a.1 + 1 < a'.1 + 1
        omega
      · rw [if_neg hma'] at hb'
        cases hb'
    · rw [if_neg hma] at hb
      cases hb
  · intro d hd
    refine ⟨(d.entries.filter fun e => endsWithL ".yml".data e.1 && !isHidden e.1).flatMap
        (fun e => scanFile (uriOf e.1) e.2),
      (d.entries.filter fun e => endsWithL ".yaml".data e.1 && !isHidden e.1).flatMap
        (fun e => scanFile (uriOf e.1) e.2), ?_, ?_, ?_⟩
    · unfold scan_workflows
      rw [hd]
      unfold globFiles
      exact List.flatMap_append _ _ _
    · intro f hf
      rw [List.mem_flatMap] at hf
      obtain ⟨e, he, hfe⟩ := hf
      rw [List.mem_filter, Bool.and_eq_true] at he
      have hyml : endsWithL ".yml".data e.1 = true := he.2.1
      obtain ⟨i, hi, hm, rfl⟩ := mem_scanFile.1 hfe
      show endsWithL ".yml".data (uriOf e.1) = true
      exact endsWithL_append hyml _
    · intro f hf
      rw [List.mem_flatMap] at hf
      obtain ⟨e, he, hfe⟩ := hf
      rw [List.mem_filter, Bool.and_eq_true] at he
      have hyaml : endsWithL ".yaml".data e.1 = true := he.2.1
      obtain ⟨i, hi, hm, rfl⟩ := mem_scanFile.1 hfe
      show endsWithL ".yaml".data (uriOf e.1) = true
      exact endsWithL_append hyaml _

/-- Witness for C10 at the concrete example filesystem. -/
theorem C10_order_witness :
    exFinding1.region.endLine = exFinding1.region.startLine ∧
    ∃ l1 l2, scan_workflows exFS1 = l1 ++ l2 ∧
      (∀ f ∈ l1, endsWithL ".yml".data f.uri = true) ∧
      (∀ f ∈ l2, endsWithL ".yaml".data f.uri = true) :=
  ⟨(C10_order exFS1).1 exFinding1 (by decide), (C10_order exFS1).2.2 exDir1 rfl⟩

end ScanWf
